import Mathlib

/-!
Verification of the N-body integrator core (`n-body-modelling-2D.py`).

The Python source is shallowly embedded over `ℝ`:

* `Body` mirrors the `Body` class; its field order mirrors the order of the
  parameters of `Body.__init__(self, x, vx, y, vy, mass, name)`, so that
  `Body.mk a b c d m nm` is the positional call `Body(a, b, c, d, m, nm)`.
* Machine floats are modelled as exact reals.  A second evaluator
  (`n_body_funcF`) tracks where IEEE arithmetic would produce a non-finite
  value: `Option ℝ` with `none` standing for `inf`/`nan`.  The only operation
  in the source that turns finite operands into a non-finite value is
  `r ** (-3)` at `r = 0` (numpy yields `inf`, and the subsequent
  multiplication by the zero separation yields `nan`).
* `scipy.integrate.ode` is modelled as an oracle `integ : ℕ → ℝ → List ℝ × Bool`:
  the result of `integrator.integrate(t[i])` at the i-th call together with the
  success flag that `integrator.successful()` would report.  scipy's `ode`
  never raises on a failed step: it warns and still returns a state vector.
  The source reads only the returned vector (`.1`) and never the flag.
-/

/-- The `Body` class.  Field order follows `Body.__init__(self, x, vx, y, vy,
mass, name)`: the constructor's second positional argument is `vx`, its third
is `y`. -/
structure Body where
  x : ℝ
  vx : ℝ
  y : ℝ
  vy : ℝ
  mass : ℝ
  name : String
deriving Inhabited

/-- A config dict for one body: each of the six required keys is present
(`some`) or missing (`none`). -/
structure BodyConfig where
  x : Option ℝ
  y : Option ℝ
  vx : Option ℝ
  vy : Option ℝ
  mass : Option ℝ
  name : Option String

/-- `load_body` from the source: checks the six required keys (raising —
`none` here — when one is missing), reads `x, y = b["x"], b["y"]`,
`vx, vy = b["vx"], b["vy"]`, and returns the positional call
`Body(x, y, vx, vy, mass, name)`. -/
def load_body (b : BodyConfig) : Option Body :=
  match b.x, b.y, b.vx, b.vy, b.mass, b.name with
  | some x, some y, some vx, some vy, some mass, some name =>
      some (Body.mk x y vx vy mass name)
  | _, _, _, _, _, _ => none

/-- `load_bodies` from the source: loads each config dict in order; an
exception from `load_body` aborts the whole call. -/
def load_bodies (config : List BodyConfig) : Option (List Body) :=
  config.mapM load_body

/-- `set_initial` from the source: for each body append
`[body.x, body.vx, body.y, body.vy]` to the flat initial-condition list. -/
def set_initial (bodies : List Body) : List ℝ :=
  bodies.flatMap fun body => [body.x, body.vx, body.y, body.vy]

/-- `G = 1`, the hardcoded gravitational constant. -/
def G : ℝ := 1

/-- `pos_vel_array[i * 4]`, the x position of body `i` in the state vector. -/
def xPos (pos_vel_array : List ℝ) (i : ℕ) : ℝ :=
  pos_vel_array.getD (i * 4) 0

/-- `pos_vel_array[i * 4 + 2]`, the y position of body `i` in the state
vector. -/
def yPos (pos_vel_array : List ℝ) (i : ℕ) : ℝ :=
  pos_vel_array.getD (i * 4 + 2) 0

/-- The source's `r = ((x_i - x_j) ** 2 + (y_i - y_j) ** 2) ** 0.5`. -/
noncomputable def rDist (pos_vel_array : List ℝ) (i j : ℕ) : ℝ :=
  Real.sqrt ((xPos pos_vel_array i - xPos pos_vel_array j) ^ 2 +
    (yPos pos_vel_array i - yPos pos_vel_array j) ^ 2)

/-- `other_body.mass` for the body at index `j` of the body list. -/
def massOf (bodies : List Body) (j : ℕ) : ℝ :=
  (bodies.getD j default).mass

/-- The inner loop accumulating `dx_vel_body`: for every `j ≠ i` add
`(-G * mass_other_body * (x_i - x_j)) * r ** (-3)`. -/
noncomputable def dVelX (pos_vel_array : List ℝ) (bodies : List Body) (i : ℕ) : ℝ :=
  ∑ j in Finset.range bodies.length,
    if i ≠ j then
      (-G * massOf bodies j * (xPos pos_vel_array i - xPos pos_vel_array j)) *
        rDist pos_vel_array i j ^ (-3 : ℤ)
    else 0

/-- The inner loop accumulating `dy_vel_body`: for every `j ≠ i` add
`(-G * mass_other_body * (y_i - y_j)) * r ** (-3)`. -/
noncomputable def dVelY (pos_vel_array : List ℝ) (bodies : List Body) (i : ℕ) : ℝ :=
  ∑ j in Finset.range bodies.length,
    if i ≠ j then
      (-G * massOf bodies j * (yPos pos_vel_array i - yPos pos_vel_array j)) *
        rDist pos_vel_array i j ^ (-3 : ℤ)
    else 0

/-- `n_body_func` from the source, over exact reals.  The derivative array has
length `4 * len(bodies)`: the strided writes `dpos[0::4] = pva[1::4]` and
`dpos[2::4] = pva[3::4]` put `pva[k+1]` at every component `k` with
`k % 4 ∈ {0, 2}`, and the double loop puts the accumulated velocity changes at
components `4i+1` and `4i+3`.  `t` is accepted but unused, exactly as in the
source. -/
noncomputable def n_body_func (t : ℝ) (pos_vel_array : List ℝ) (bodies : List Body) :
    List ℝ :=
  (List.range (4 * bodies.length)).map fun k =>
    if k % 4 = 0 then pos_vel_array.getD (k + 1) 0
    else if k % 4 = 2 then pos_vel_array.getD (k + 1) 0
    else if k % 4 = 1 then dVelX pos_vel_array bodies (k / 4)
    else dVelY pos_vel_array bodies (k / 4)

-- ### Helper lemmas on list indexing

theorem rangeMap_getD {β : Type} (f : ℕ → β) (d : β) (m k : ℕ) (hk : k < m) :
    (((List.range m).map f).getD k d) = f k := by
  rw [List.getD_eq_getElem?_getD]
  rw [List.getElem?_map]
  rw [List.getElem?_range hk]
  rfl

theorem rangeMap_getD_ge {β : Type} (f : ℕ → β) (d : β) (m k : ℕ) (hk : m ≤ k) :
    (((List.range m).map f).getD k d) = d := by
  rw [List.getD_eq_getElem?_getD]
  rw [List.getElem?_eq_none]
  · rfl
  · simpa using hk

theorem bind_four_getD {α β : Type} (l : List α) (g0 g1 g2 g3 : α → β) (d : β)
    (i : ℕ) (hi : i < l.length) :
    ((l.flatMap fun a => [g0 a, g1 a, g2 a, g3 a]).getD (4 * i) d
        = g0 (l.get ⟨i, hi⟩)) ∧
    ((l.flatMap fun a => [g0 a, g1 a, g2 a, g3 a]).getD (4 * i + 1) d
        = g1 (l.get ⟨i, hi⟩)) ∧
    ((l.flatMap fun a => [g0 a, g1 a, g2 a, g3 a]).getD (4 * i + 2) d
        = g2 (l.get ⟨i, hi⟩)) ∧
    ((l.flatMap fun a => [g0 a, g1 a, g2 a, g3 a]).getD (4 * i + 3) d
        = g3 (l.get ⟨i, hi⟩)) := by
  induction l generalizing i with
  | nil => simp at hi
  | cons a tl ih =>
    cases i with
    | zero => simp [List.flatMap_cons]
    | succ i =>
      have hi' : i < tl.length := by simpa using hi
      have e : ∀ c : ℕ, 4 * (i + 1) + c = [g0 a, g1 a, g2 a, g3 a].length + (4 * i + c) := by
        intro c; simp; omega
      have key := ih i hi'
      constructor
      · have := e 0
        rw [show 4 * (i + 1) = [g0 a, g1 a, g2 a, g3 a].length + (4 * i) by simp; omega]
        rw [List.flatMap_cons, List.getD_append_right _ _ _ _ (by simp)]
        simpa using key.1
      constructor
      · rw [e 1, List.flatMap_cons, List.getD_append_right _ _ _ _ (by simp)]
        simpa using key.2.1
      constructor
      · rw [e 2, List.flatMap_cons, List.getD_append_right _ _ _ _ (by simp)]
        simpa using key.2.2.1
      · rw [e 3, List.flatMap_cons, List.getD_append_right _ _ _ _ (by simp)]
        simpa using key.2.2.2

-- ### IEEE-tracking variant of the evaluator

/-- The source's `r ** (-3)` under IEEE semantics: at `r = 0` numpy produces
`inf` (a non-finite value, modelled as `none`); at `r ≠ 0` the value is the
exact real power. -/
noncomputable def rPowNeg3 (r : ℝ) : Option ℝ :=
  if r = 0 then none else some (r ^ (-3 : ℤ))

/-- Accumulation of a float `+=` loop: a non-finite term (`none`) poisons the
running total, as `nan`/`inf` does. -/
noncomputable def optSum (l : List (Option ℝ)) : Option ℝ :=
  l.foldl (fun acc t =>
    match acc, t with
    | some a, some b => some (a + b)
    | _, _ => none) (some 0)

/-- The `dx_vel_body` accumulation under IEEE tracking: the term for body
`j ≠ i` is `(-G * mass_j * (x_i - x_j)) * (r ** (-3))`, non-finite exactly
when `r = 0` (numpy: `0.0 ** -3 = inf`, then `-0.0 * inf = nan`). -/
noncomputable def dVelXF (pos_vel_array : List ℝ) (bodies : List Body) (i : ℕ) :
    Option ℝ :=
  optSum (((List.range bodies.length).filter fun j => i ≠ j).map fun j =>
    (rPowNeg3 (rDist pos_vel_array i j)).map fun p =>
      (-G * massOf bodies j * (xPos pos_vel_array i - xPos pos_vel_array j)) * p)

/-- The `dy_vel_body` accumulation under IEEE tracking. -/
noncomputable def dVelYF (pos_vel_array : List ℝ) (bodies : List Body) (i : ℕ) :
    Option ℝ :=
  optSum (((List.range bodies.length).filter fun j => i ≠ j).map fun j =>
    (rPowNeg3 (rDist pos_vel_array i j)).map fun p =>
      (-G * massOf bodies j * (yPos pos_vel_array i - yPos pos_vel_array j)) * p)

/-- `n_body_func` under IEEE tracking: `none` components are the ones numpy
would return as `inf`/`nan`.  Position-derivative components are plain copies
of finite inputs and are always finite. -/
noncomputable def n_body_funcF (t : ℝ) (pos_vel_array : List ℝ) (bodies : List Body) :
    List (Option ℝ) :=
  (List.range (4 * bodies.length)).map fun k =>
    if k % 4 = 0 then some (pos_vel_array.getD (k + 1) 0)
    else if k % 4 = 2 then some (pos_vel_array.getD (k + 1) 0)
    else if k % 4 = 1 then dVelXF pos_vel_array bodies (k / 4)
    else dVelYF pos_vel_array bodies (k / 4)

-- ### The trajectory integrator

/-- `np.linspace(t0, t1, num)`: `num` evenly spaced samples, sample `i` at
`t0 + i * (t1 - t0) / (num - 1)`, endpoints included. -/
noncomputable def linspace (t0 t1 : ℝ) (num : ℕ) : List ℝ :=
  (List.range num).map fun i : ℕ => t0 + (i : ℝ) * ((t1 - t0) / ((num : ℝ) - 1))

/-- `calc_orbits` from the source.  `integ i t` models the i-th call
`integrator.integrate(t)` of the `dop853`-configured `scipy.integrate.ode`
object: it yields the state vector scipy returns together with the success
flag `integrator.successful()` would report afterwards.  scipy's `ode` never
raises on a failed step — it warns, sets the flag, and still returns a state —
and the source reads only the returned vector, never the flag.  Row `0` of the
solution array is `set_initial(bodies)`; row `i ≥ 1` is the result of the
i-th `integrate` call at target time `t[i] = linspace(t0, t1, dt)[i]`. -/
noncomputable def calc_orbits (integ : ℕ → ℝ → List ℝ × Bool) (bodies : List Body)
    (t0 t1 : ℝ) (dt : ℕ) : List (List ℝ) :=
  (List.range dt).map fun i =>
    if i = 0 then set_initial bodies
    else (integ i ((linspace t0 t1 dt).getD i 0)).1

/-- The net effect of `store_orbits`' `rename_spec` loop: column `4i + 0` is
`name_x`, `4i + 1` is `name_vx`, `4i + 2` is `name_y`, `4i + 3` is `name_vy`,
for the i-th body.  No column is named for a time value. -/
def store_column_names (bodies : List Body) : List String :=
  bodies.flatMap fun b =>
    [b.name ++ "_x", b.name ++ "_vx", b.name ++ "_y", b.name ++ "_vy"]

-- ### Component lemmas for the evaluator

theorem n_body_func_length (t : ℝ) (pva : List ℝ) (bodies : List Body) :
    (n_body_func t pva bodies).length = 4 * bodies.length := by
  simp [n_body_func]

theorem n_body_func_getD_pos (t : ℝ) (pva : List ℝ) (bodies : List Body)
    (i : ℕ) (hi : i < bodies.length) :
    (n_body_func t pva bodies).getD (4 * i) 0 = pva.getD (4 * i + 1) 0 ∧
    (n_body_func t pva bodies).getD (4 * i + 2) 0 = pva.getD (4 * i + 3) 0 := by
  unfold n_body_func
  constructor
  · rw [rangeMap_getD _ _ _ _ (by omega)]
    simp [Nat.mul_mod_right]
  · rw [rangeMap_getD _ _ _ _ (by omega)]
    have h1 : (4 * i + 2) % 4 = 2 := by omega
    simp [h1]

theorem n_body_func_getD_vel (t : ℝ) (pva : List ℝ) (bodies : List Body)
    (i : ℕ) (hi : i < bodies.length) :
    (n_body_func t pva bodies).getD (4 * i + 1) 0 = dVelX pva bodies i ∧
    (n_body_func t pva bodies).getD (4 * i + 3) 0 = dVelY pva bodies i := by
  unfold n_body_func
  constructor
  · rw [rangeMap_getD _ _ _ _ (by omega)]
    have h1 : (4 * i + 1) % 4 = 1 := by omega
    have h2 : (4 * i + 1) / 4 = i := by omega
    simp [h1, h2]
  · rw [rangeMap_getD _ _ _ _ (by omega)]
    have h1 : (4 * i + 3) % 4 = 3 := by omega
    have h2 : (4 * i + 3) / 4 = i := by omega
    simp [h1, h2]

theorem zpow_neg_three (r : ℝ) : r ^ (-3 : ℤ) = (r ^ 3)⁻¹ := by
  rw [zpow_neg]
  norm_cast

theorem dVelX_eq_div (pva : List ℝ) (bodies : List Body) (i : ℕ) :
    dVelX pva bodies i =
      ∑ j in (Finset.range bodies.length).erase i,
        -1 * massOf bodies j * (xPos pva i - xPos pva j) /
          Real.sqrt ((xPos pva i - xPos pva j) ^ 2 + (yPos pva i - yPos pva j) ^ 2) ^ 3 := by
  unfold dVelX
  rw [Finset.sum_ite, Finset.sum_const_zero, add_zero]
  rw [Finset.filter_ne]
  refine Finset.sum_congr rfl fun j _ => ?_
  rw [zpow_neg_three, rDist]
  rw [div_eq_mul_inv]
  unfold G
  ring

theorem dVelY_eq_div (pva : List ℝ) (bodies : List Body) (i : ℕ) :
    dVelY pva bodies i =
      ∑ j in (Finset.range bodies.length).erase i,
        -1 * massOf bodies j * (yPos pva i - yPos pva j) /
          Real.sqrt ((xPos pva i - xPos pva j) ^ 2 + (yPos pva i - yPos pva j) ^ 2) ^ 3 := by
  unfold dVelY
  rw [Finset.sum_ite, Finset.sum_const_zero, add_zero]
  rw [Finset.filter_ne]
  refine Finset.sum_congr rfl fun j _ => ?_
  rw [zpow_neg_three, rDist]
  rw [div_eq_mul_inv]
  unfold G
  ring

/-- Claim C1: for every time `t`, body list of length `n`, and state vector of
length `4n` whose body positions are pairwise distinct, `n_body_func` returns
a derivative vector of the same length and layout where components `4i` and
`4i+2` are the input components `4i+1` and `4i+3`, and the acceleration
components `4i+1` and `4i+3` of each body `i` are the sums over every other
body `j` of `-G * mass_j * (pos_i - pos_j) / |pos_i - pos_j|^3` with
`G = 1`. -/
theorem n_body_func_spec (t : ℝ) (bodies : List Body) (pva : List ℝ)
    (hlen : pva.length = 4 * bodies.length)
    (hsep : ∀ i j, i < bodies.length → j < bodies.length → i ≠ j →
      xPos pva i ≠ xPos pva j ∨ yPos pva i ≠ yPos pva j) :
    (n_body_func t pva bodies).length = pva.length ∧
    ∀ i, i < bodies.length →
      (n_body_func t pva bodies).getD (4 * i) 0 = pva.getD (4 * i + 1) 0 ∧
      (n_body_func t pva bodies).getD (4 * i + 2) 0 = pva.getD (4 * i + 3) 0 ∧
      (n_body_func t pva bodies).getD (4 * i + 1) 0 =
        (∑ j in (Finset.range bodies.length).erase i,
          -1 * massOf bodies j * (xPos pva i - xPos pva j) /
            Real.sqrt ((xPos pva i - xPos pva j) ^ 2 + (yPos pva i - yPos pva j) ^ 2) ^ 3) ∧
      (n_body_func t pva bodies).getD (4 * i + 3) 0 =
        (∑ j in (Finset.range bodies.length).erase i,
          -1 * massOf bodies j * (yPos pva i - yPos pva j) /
            Real.sqrt ((xPos pva i - xPos pva j) ^ 2 + (yPos pva i - yPos pva j) ^ 2) ^ 3) := by
  refine ⟨by rw [n_body_func_length, hlen], fun i hi => ?_⟩
  obtain ⟨hp0, hp2⟩ := n_body_func_getD_pos t pva bodies i hi
  obtain ⟨hv1, hv3⟩ := n_body_func_getD_vel t pva bodies i hi
  exact ⟨hp0, hp2, by rw [hv1, dVelX_eq_div], by rw [hv3, dVelY_eq_div]⟩

/-- Two test bodies at distinct positions, used to instantiate hypotheses. -/
def bodyA : Body := Body.mk 0 0 0 0 1 "a"

/-- A second test body. -/
def bodyB : Body := Body.mk 1 0 0 0 2 "b"

/-- A state vector for `[bodyA, bodyB]`: body 0 at `(0, 0)`, body 1 at
`(1, 0)`. -/
def pvaAB : List ℝ := [0, 0, 0, 0, 1, 0, 0, 0]

theorem n_body_func_spec_witness :
    (pvaAB.length = 4 * [bodyA, bodyB].length ∧
      (∀ i j, i < [bodyA, bodyB].length → j < [bodyA, bodyB].length → i ≠ j →
        xPos pvaAB i ≠ xPos pvaAB j ∨ yPos pvaAB i ≠ yPos pvaAB j)) ∧
    ((n_body_func 0 pvaAB [bodyA, bodyB]).length = pvaAB.length ∧
    ∀ i, i < [bodyA, bodyB].length →
      (n_body_func 0 pvaAB [bodyA, bodyB]).getD (4 * i) 0 = pvaAB.getD (4 * i + 1) 0 ∧
      (n_body_func 0 pvaAB [bodyA, bodyB]).getD (4 * i + 2) 0 = pvaAB.getD (4 * i + 3) 0 ∧
      (n_body_func 0 pvaAB [bodyA, bodyB]).getD (4 * i + 1) 0 =
        (∑ j in (Finset.range [bodyA, bodyB].length).erase i,
          -1 * massOf [bodyA, bodyB] j * (xPos pvaAB i - xPos pvaAB j) /
            Real.sqrt ((xPos pvaAB i - xPos pvaAB j) ^ 2 + (yPos pvaAB i - yPos pvaAB j) ^ 2) ^ 3) ∧
      (n_body_func 0 pvaAB [bodyA, bodyB]).getD (4 * i + 3) 0 =
        (∑ j in (Finset.range [bodyA, bodyB].length).erase i,
          -1 * massOf [bodyA, bodyB] j * (yPos pvaAB i - yPos pvaAB j) /
            Real.sqrt ((xPos pvaAB i - xPos pvaAB j) ^ 2 + (yPos pvaAB i - yPos pvaAB j) ^ 2) ^ 3)) := by
  have hlen : pvaAB.length = 4 * [bodyA, bodyB].length := by simp [pvaAB]
  have hsep : ∀ i j, i < [bodyA, bodyB].length → j < [bodyA, bodyB].length → i ≠ j →
      xPos pvaAB i ≠ xPos pvaAB j ∨ yPos pvaAB i ≠ yPos pvaAB j := by
    intro i j hi hj hij
    simp only [List.length_cons, List.length_nil] at hi hj
    interval_cases i <;> interval_cases j <;> simp_all [xPos, pvaAB]
  exact ⟨⟨hlen, hsep⟩, n_body_func_spec 0 [bodyA, bodyB] pvaAB hlen hsep⟩

theorem set_initial_getD (bodies : List Body) (i : ℕ) (hi : i < bodies.length) :
    (set_initial bodies).getD (4 * i) 0 = (bodies.get ⟨i, hi⟩).x ∧
    (set_initial bodies).getD (4 * i + 1) 0 = (bodies.get ⟨i, hi⟩).vx ∧
    (set_initial bodies).getD (4 * i + 2) 0 = (bodies.get ⟨i, hi⟩).y ∧
    (set_initial bodies).getD (4 * i + 3) 0 = (bodies.get ⟨i, hi⟩).vy :=
  bind_four_getD bodies Body.x Body.vx Body.y Body.vy 0 i hi

/-- Claim C2: for every body list (and at least one requested sample), the
first row of the array returned by `calc_orbits` is the initial condition,
recorded without any integration step: it is exactly `set_initial(bodies)`,
the concatenation of each body's `(x, vx, y, vy)` attributes in list order,
so unpacking that row reproduces each input body's position and velocity
attributes. -/
theorem calc_orbits_first_row (integ : ℕ → ℝ → List ℝ × Bool) (bodies : List Body)
    (t0 t1 : ℝ) (dt : ℕ) (hdt : 1 ≤ dt) :
    (calc_orbits integ bodies t0 t1 dt).getD 0 [] = set_initial bodies ∧
    ∀ i, ∀ hi : i < bodies.length,
      ((calc_orbits integ bodies t0 t1 dt).getD 0 []).getD (4 * i) 0
        = (bodies.get ⟨i, hi⟩).x ∧
      ((calc_orbits integ bodies t0 t1 dt).getD 0 []).getD (4 * i + 1) 0
        = (bodies.get ⟨i, hi⟩).vx ∧
      ((calc_orbits integ bodies t0 t1 dt).getD 0 []).getD (4 * i + 2) 0
        = (bodies.get ⟨i, hi⟩).y ∧
      ((calc_orbits integ bodies t0 t1 dt).getD 0 []).getD (4 * i + 3) 0
        = (bodies.get ⟨i, hi⟩).vy := by
  have hrow : (calc_orbits integ bodies t0 t1 dt).getD 0 [] = set_initial bodies := by
    unfold calc_orbits
    rw [rangeMap_getD _ _ _ _ (by omega)]
    simp
  refine ⟨hrow, fun i hi => ?_⟩
  rw [hrow]
  exact set_initial_getD bodies i hi

/-- A trivial integrator oracle: every call reports success and returns a
zero state of length 8. -/
noncomputable def okInteg : ℕ → ℝ → List ℝ × Bool :=
  fun _ _ => ([0, 0, 0, 0, 0, 0, 0, 0], true)

theorem calc_orbits_first_row_witness :
    1 ≤ 2 ∧
    ((calc_orbits okInteg [bodyA, bodyB] 0 1 2).getD 0 [] = set_initial [bodyA, bodyB] ∧
    ∀ i, ∀ hi : i < [bodyA, bodyB].length,
      ((calc_orbits okInteg [bodyA, bodyB] 0 1 2).getD 0 []).getD (4 * i) 0
        = ([bodyA, bodyB].get ⟨i, hi⟩).x ∧
      ((calc_orbits okInteg [bodyA, bodyB] 0 1 2).getD 0 []).getD (4 * i + 1) 0
        = ([bodyA, bodyB].get ⟨i, hi⟩).vx ∧
      ((calc_orbits okInteg [bodyA, bodyB] 0 1 2).getD 0 []).getD (4 * i + 2) 0
        = ([bodyA, bodyB].get ⟨i, hi⟩).y ∧
      ((calc_orbits okInteg [bodyA, bodyB] 0 1 2).getD 0 []).getD (4 * i + 3) 0
        = ([bodyA, bodyB].get ⟨i, hi⟩).vy) :=
  ⟨by omega, calc_orbits_first_row okInteg [bodyA, bodyB] 0 1 2 (by omega)⟩

/-- The config dict with all six keys present, holding the raw tuple
`(x, y, vx, vy, mass, name)`. -/
def mkConfig (v : ℝ × ℝ × ℝ × ℝ × ℝ × String) : BodyConfig :=
  ⟨some v.1, some v.2.1, some v.2.2.1, some v.2.2.2.1, some v.2.2.2.2.1,
    some v.2.2.2.2.2⟩

/-- The `Body` that `load_body` actually builds from the tuple
`(x, y, vx, vy, mass, name)`: the positional call `Body(x, y, vx, vy, mass,
name)` against the parameter list `(x, vx, y, vy, mass, name)`. -/
def loadedBody (v : ℝ × ℝ × ℝ × ℝ × ℝ × String) : Body :=
  Body.mk v.1 v.2.1 v.2.2.1 v.2.2.2.1 v.2.2.2.2.1 v.2.2.2.2.2

/-- Claim C3: for every config dict with all six required keys (raw values
`(x, y, vx, vy, mass, name)`), `load_body` passes them to `Body` positionally
against the parameter list `(x, vx, y, vy, mass, name)`, so the returned
`Body` has `vx` equal to the dict's `y` value and `y` equal to the dict's
`vx` value, and the initial state vector `set_initial` assembles from loaded
bodies is laid out `[x, y, vx, vy]` per body rather than the documented
`[x, vx, y, vy]`. -/
theorem load_body_swaps_vx_y (l : List (ℝ × ℝ × ℝ × ℝ × ℝ × String)) :
    load_bodies (l.map mkConfig) = some (l.map loadedBody) ∧
    (∀ v ∈ l, (loadedBody v).vx = v.2.1 ∧ (loadedBody v).y = v.2.2.1) ∧
    set_initial (l.map loadedBody)
      = l.flatMap fun v => [v.1, v.2.1, v.2.2.1, v.2.2.2.1] := by
  refine ⟨?_, fun v _ => ⟨rfl, rfl⟩, ?_⟩
  · induction l with
    | nil => rfl
    | cons a tl ih =>
      simp only [List.map_cons, load_bodies, List.mapM_cons] at ih ⊢
      rw [show load_body (mkConfig a) = some (loadedBody a) from rfl]
      rw [show (List.mapM load_body (tl.map mkConfig)) = some (tl.map loadedBody) from ih]
      rfl
  · induction l with
    | nil => rfl
    | cons a tl ih =>
      simp only [List.map_cons, set_initial, List.flatMap_cons] at ih ⊢
      rw [ih]
      rfl

/-- Claim C7: for every call with sample parameter `dt ≥ 2`, `calc_orbits`
produces one row per requested output time — exactly `dt` rows — and the
output grid `np.linspace(t0, t1, dt)` consists of `dt` evenly spaced times
from `t0` to `t1` inclusive with consecutive spacing `(t1 - t0)/(dt - 1)`:
the parameter is a sample count, not a step size. -/
theorem calc_orbits_time_grid (integ : ℕ → ℝ → List ℝ × Bool) (bodies : List Body)
    (t0 t1 : ℝ) (dt : ℕ) (hdt : 2 ≤ dt) :
    (calc_orbits integ bodies t0 t1 dt).length = dt ∧
    (linspace t0 t1 dt).length = dt ∧
    (linspace t0 t1 dt).getD 0 0 = t0 ∧
    (linspace t0 t1 dt).getD (dt - 1) 0 = t1 ∧
    ∀ i, i + 1 < dt →
      (linspace t0 t1 dt).getD (i + 1) 0 - (linspace t0 t1 dt).getD i 0
        = (t1 - t0) / ((dt : ℝ) - 1) := by
  have hne : ((dt : ℝ) - 1) ≠ 0 := by
    have : (2 : ℝ) ≤ (dt : ℝ) := by exact_mod_cast hdt
    linarith
  refine ⟨by simp [calc_orbits], by simp [linspace], ?_, ?_, ?_⟩
  · unfold linspace
    rw [rangeMap_getD _ _ _ _ (by omega)]
    simp
  · unfold linspace
    rw [rangeMap_getD _ _ _ _ (by omega)]
    have hcast : ((dt - 1 : ℕ) : ℝ) = (dt : ℝ) - 1 := by
      have : (1 : ℕ) ≤ dt := by omega
      push_cast [this]
      ring
    rw [hcast]
    field_simp
  · intro i hi
    unfold linspace
    rw [rangeMap_getD _ _ _ _ (by omega), rangeMap_getD _ _ _ _ (by omega)]
    push_cast
    ring

theorem calc_orbits_time_grid_witness :
    2 ≤ 3 ∧
    ((calc_orbits okInteg [bodyA] 0 1 3).length = 3 ∧
    (linspace 0 1 3).length = 3 ∧
    (linspace 0 1 3).getD 0 0 = 0 ∧
    (linspace 0 1 3).getD (3 - 1) 0 = 1 ∧
    ∀ i, i + 1 < 3 →
      (linspace 0 1 3).getD (i + 1) 0 - (linspace 0 1 3).getD i 0
        = (1 - 0) / ((3 : ℝ) - 1)) :=
  ⟨by omega, calc_orbits_time_grid okInteg [bodyA] 0 1 3 (by omega)⟩

theorem flatMap_four_length {α β : Type} (l : List α) (f : α → List β)
    (hf : ∀ a, (f a).length = 4) : (l.flatMap f).length = 4 * l.length := by
  induction l with
  | nil => rfl
  | cons a tl ih =>
    rw [List.flatMap_cons, List.length_append, hf, ih, List.length_cons]
    ring

theorem set_initial_length (bodies : List Body) :
    (set_initial bodies).length = 4 * bodies.length :=
  flatMap_four_length bodies _ fun _ => rfl

/-- Claim C6 counterexample: for a one-body list the rows of the array
returned by `calc_orbits` do not consist of the state vector plus a time
column (`4 * 1 + 1 = 5` entries) — the first row is `set_initial`, which has
only the 4 state components, and no time value is stored. -/
theorem calc_orbits_no_time_column_cex :
    ¬ (∀ row ∈ calc_orbits okInteg [bodyA] 0 1 2, row.length = 4 * [bodyA].length + 1) := by
  intro h
  have hmem : set_initial [bodyA] ∈ calc_orbits okInteg [bodyA] 0 1 2 := by
    unfold calc_orbits
    refine List.mem_map.mpr ⟨0, ?_, by simp⟩
    simp
  have := h _ hmem
  rw [set_initial_length] at this
  simp at this

/-- Claim C6 (amended): every row of the array returned by `calc_orbits` has
exactly the `4 n` columns of the state vector — there is no time column —
and `store_orbits` names column `4 i + c` after body `i`'s component
(`name_x`, `name_vx`, `name_y`, `name_vy`), so tabular export and plotting
address each body's components unambiguously by column index; sample times
are not part of the array. -/
theorem calc_orbits_row_layout (integ : ℕ → ℝ → List ℝ × Bool) (bodies : List Body)
    (t0 t1 : ℝ) (dt : ℕ)
    (hinteg : ∀ i t, ((integ i t).1).length = 4 * bodies.length) :
    (∀ row ∈ calc_orbits integ bodies t0 t1 dt, row.length = 4 * bodies.length) ∧
    (store_column_names bodies).length = 4 * bodies.length ∧
    ∀ i, ∀ hi : i < bodies.length,
      (store_column_names bodies).getD (4 * i) ""
        = (bodies.get ⟨i, hi⟩).name ++ "_x" ∧
      (store_column_names bodies).getD (4 * i + 1) ""
        = (bodies.get ⟨i, hi⟩).name ++ "_vx" ∧
      (store_column_names bodies).getD (4 * i + 2) ""
        = (bodies.get ⟨i, hi⟩).name ++ "_y" ∧
      (store_column_names bodies).getD (4 * i + 3) ""
        = (bodies.get ⟨i, hi⟩).name ++ "_vy" := by
  refine ⟨?_, flatMap_four_length bodies _ fun _ => rfl, fun i hi => ?_⟩
  · intro row hrow
    unfold calc_orbits at hrow
    obtain ⟨k, _, hk⟩ := List.mem_map.mp hrow
    by_cases h0 : k = 0
    · rw [← hk, h0]
      simpa using set_initial_length bodies
    · rw [← hk]
      simp only [h0, if_false]
      exact hinteg k _
  · exact bind_four_getD bodies (fun b => b.name ++ "_x") (fun b => b.name ++ "_vx")
      (fun b => b.name ++ "_y") (fun b => b.name ++ "_vy") "" i hi

theorem calc_orbits_row_layout_witness :
    (∀ i t, ((okInteg i t).1).length = 4 * [bodyA, bodyB].length) ∧
    ((∀ row ∈ calc_orbits okInteg [bodyA, bodyB] 0 1 3,
        row.length = 4 * [bodyA, bodyB].length) ∧
    (store_column_names [bodyA, bodyB]).length = 4 * [bodyA, bodyB].length ∧
    ∀ i, ∀ hi : i < [bodyA, bodyB].length,
      (store_column_names [bodyA, bodyB]).getD (4 * i) ""
        = ([bodyA, bodyB].get ⟨i, hi⟩).name ++ "_x" ∧
      (store_column_names [bodyA, bodyB]).getD (4 * i + 1) ""
        = ([bodyA, bodyB].get ⟨i, hi⟩).name ++ "_vx" ∧
      (store_column_names [bodyA, bodyB]).getD (4 * i + 2) ""
        = ([bodyA, bodyB].get ⟨i, hi⟩).name ++ "_y" ∧
      (store_column_names [bodyA, bodyB]).getD (4 * i + 3) ""
        = ([bodyA, bodyB].get ⟨i, hi⟩).name ++ "_vy") := by
  have hinteg : ∀ i t, ((okInteg i t).1).length = 4 * [bodyA, bodyB].length := by
    intro i t
    simp [okInteg]
  exact ⟨hinteg, calc_orbits_row_layout okInteg [bodyA, bodyB] 0 1 3 hinteg⟩

theorem optSum_foldl_none (l : List (Option ℝ)) :
    l.foldl (fun acc t =>
      match acc, t with
      | some a, some b => some (a + b)
      | _, _ => none) none = none := by
  induction l with
  | nil => rfl
  | cons a tl ih =>
    rw [List.foldl_cons]
    cases a <;> exact ih

theorem optSum_eq_none (l : List (Option ℝ)) (h : none ∈ l) : optSum l = none := by
  unfold optSum
  generalize some (0 : ℝ) = acc
  induction l generalizing acc with
  | nil => simp at h
  | cons a tl ih =>
    rw [List.foldl_cons]
    rcases List.mem_cons.mp h with ha | htl
    · rw [← ha]
      cases acc <;> exact optSum_foldl_none tl
    · exact ih htl _

/-- An integrator oracle behaving as scipy's `ode` does once a `dop853` step
has failed (step-size underflow or a non-finite derivative): every call warns,
reports failure through the success flag, and still returns a state vector. -/
noncomputable def badInteg : ℕ → ℝ → List ℝ × Bool :=
  fun _ _ => ([0, 0, 0, 0, 0, 0, 0, 0], false)

/-- Two bodies initialized at identical coordinates (the origin). -/
def coincidentBodies : List Body :=
  [Body.mk 0 0 0 0 1 "p", Body.mk 0 0 0 0 1 "q"]

theorem dVelXF_coincident_none :
    dVelXF (set_initial coincidentBodies) coincidentBodies 0 = none := by
  apply optSum_eq_none
  refine List.mem_map.mpr ⟨1, ?_, ?_⟩
  · decide
  · have hr : rDist (set_initial coincidentBodies) 0 1 = 0 := by
      rw [show set_initial coincidentBodies = ([0, 0, 0, 0, 0, 0, 0, 0] : List ℝ) from rfl]
      unfold rDist xPos yPos
      norm_num [List.getD]
    rw [hr]
    rw [show rPowNeg3 0 = none by simp [rPowNeg3]]
    rfl

/-- Claim C4 (evaluating the code at the failing input): with two bodies at
identical coordinates the force evaluation at the initial state is non-finite,
and even with every integrator step reporting failure through the success
flag, `calc_orbits` still returns the full `dt`-row array — the source never
consults `integrator.successful()` and raises no integration error, so the
corrupted rows are returned silently. -/
theorem calc_orbits_silent_on_failure :
    (none ∈ n_body_funcF 0 (set_initial coincidentBodies) coincidentBodies) ∧
    calc_orbits badInteg coincidentBodies 0 1 3 =
      [set_initial coincidentBodies,
        [0, 0, 0, 0, 0, 0, 0, 0], [0, 0, 0, 0, 0, 0, 0, 0]] ∧
    (calc_orbits badInteg coincidentBodies 0 1 3).length = 3 := by
  refine ⟨?_, ?_, by simp [calc_orbits]⟩
  · unfold n_body_funcF
    refine List.mem_map.mpr ⟨1, ?_, ?_⟩
    · simp [coincidentBodies]
    · norm_num
      exact dVelXF_coincident_none
  · unfold calc_orbits
    rw [show List.range 3 = [0, 1, 2] from rfl]
    simp [badInteg]

/-- Claim C5: whenever two distinct bodies occupy exactly the same position,
`n_body_func` does not detect or recover from the singular geometry: the
derivative array it returns contains a non-finite (infinite or undefined)
value, produced by the arithmetic itself (`r ** (-3)` at `r = 0`), left for
the integrator to surface. -/
theorem n_body_funcF_singular (t : ℝ) (bodies : List Body) (pva : List ℝ)
    (i j : ℕ) (hi : i < bodies.length) (hj : j < bodies.length) (hij : i ≠ j)
    (hx : xPos pva i = xPos pva j) (hy : yPos pva i = yPos pva j) :
    none ∈ n_body_funcF t pva bodies := by
  unfold n_body_funcF
  refine List.mem_map.mpr ⟨4 * i + 1, List.mem_range.mpr (by omega), ?_⟩
  have h1 : (4 * i + 1) % 4 = 1 := by omega
  have h2 : (4 * i + 1) / 4 = i := by omega
  simp only [h1, h2]
  norm_num
  apply optSum_eq_none
  refine List.mem_map.mpr ⟨j, ?_, ?_⟩
  · exact List.mem_filter.mpr ⟨List.mem_range.mpr hj, by simpa using hij⟩
  · have hr : rDist pva i j = 0 := by
      unfold rDist
      rw [hx, hy]
      simp
    rw [hr, show rPowNeg3 0 = none by simp [rPowNeg3]]
    rfl

theorem n_body_funcF_singular_witness :
    (0 < coincidentBodies.length ∧ 1 < coincidentBodies.length ∧ (0 : ℕ) ≠ 1 ∧
      xPos ([0, 0, 0, 0, 0, 0, 0, 0] : List ℝ) 0 = xPos [0, 0, 0, 0, 0, 0, 0, 0] 1 ∧
      yPos ([0, 0, 0, 0, 0, 0, 0, 0] : List ℝ) 0 = yPos [0, 0, 0, 0, 0, 0, 0, 0] 1) ∧
    none ∈ n_body_funcF 0 [0, 0, 0, 0, 0, 0, 0, 0] coincidentBodies := by
  have h0 : (0 : ℕ) < coincidentBodies.length := by simp [coincidentBodies]
  have h1 : (1 : ℕ) < coincidentBodies.length := by simp [coincidentBodies]
  have hx : xPos ([0, 0, 0, 0, 0, 0, 0, 0] : List ℝ) 0 = xPos [0, 0, 0, 0, 0, 0, 0, 0] 1 := rfl
  have hy : yPos ([0, 0, 0, 0, 0, 0, 0, 0] : List ℝ) 0 = yPos [0, 0, 0, 0, 0, 0, 0, 0] 1 := rfl
  exact ⟨⟨h0, h1, by omega, hx, hy⟩,
    n_body_funcF_singular 0 coincidentBodies [0, 0, 0, 0, 0, 0, 0, 0] 0 1 h0 h1
      (by omega) hx hy⟩

theorem antisym_double_sum (n : ℕ) (F : ℕ → ℕ → ℝ) (hF : ∀ i j, F i j = -F j i) :
    ∑ i in Finset.range n, ∑ j in Finset.range n, F i j = 0 := by
  have h1 : ∑ i in Finset.range n, ∑ j in Finset.range n, F i j
      = ∑ i in Finset.range n, ∑ j in Finset.range n, -F j i :=
    Finset.sum_congr rfl fun i _ => Finset.sum_congr rfl fun j _ => hF i j
  have h2 : ∑ i in Finset.range n, ∑ j in Finset.range n, -F j i
      = -∑ i in Finset.range n, ∑ j in Finset.range n, F j i := by
    simp [Finset.sum_neg_distrib]
  have h3 : ∑ i in Finset.range n, ∑ j in Finset.range n, F j i
      = ∑ i in Finset.range n, ∑ j in Finset.range n, F i j := Finset.sum_comm
  linarith [h1, h2, h3]

theorem rDist_symm (pva : List ℝ) (i j : ℕ) : rDist pva i j = rDist pva j i := by
  unfold rDist
  ring_nf

theorem mass_weighted_dVelX_sum (pva : List ℝ) (bodies : List Body) :
    ∑ i in Finset.range bodies.length, massOf bodies i * dVelX pva bodies i = 0 := by
  unfold dVelX
  have e : ∀ i ∈ Finset.range bodies.length,
      massOf bodies i * ∑ j in Finset.range bodies.length,
        (if i ≠ j then
          (-G * massOf bodies j * (xPos pva i - xPos pva j)) *
            rDist pva i j ^ (-3 : ℤ)
        else 0)
      = ∑ j in Finset.range bodies.length,
          (if i ≠ j then
            massOf bodies i * ((-G * massOf bodies j * (xPos pva i - xPos pva j)) *
              rDist pva i j ^ (-3 : ℤ))
          else 0) := by
    intro i _
    rw [Finset.mul_sum]
    exact Finset.sum_congr rfl fun j _ => by rw [mul_ite, mul_zero]
  rw [Finset.sum_congr rfl e]
  apply antisym_double_sum
  intro i j
  by_cases hij : i = j
  · simp [hij]
  · have hij' : j ≠ i := fun h => hij h.symm
    rw [if_pos hij, if_pos hij', rDist_symm pva j i]
    ring

theorem mass_weighted_dVelY_sum (pva : List ℝ) (bodies : List Body) :
    ∑ i in Finset.range bodies.length, massOf bodies i * dVelY pva bodies i = 0 := by
  unfold dVelY
  have e : ∀ i ∈ Finset.range bodies.length,
      massOf bodies i * ∑ j in Finset.range bodies.length,
        (if i ≠ j then
          (-G * massOf bodies j * (yPos pva i - yPos pva j)) *
            rDist pva i j ^ (-3 : ℤ)
        else 0)
      = ∑ j in Finset.range bodies.length,
          (if i ≠ j then
            massOf bodies i * ((-G * massOf bodies j * (yPos pva i - yPos pva j)) *
              rDist pva i j ^ (-3 : ℤ))
          else 0) := by
    intro i _
    rw [Finset.mul_sum]
    exact Finset.sum_congr rfl fun j _ => by rw [mul_ite, mul_zero]
  rw [Finset.sum_congr rfl e]
  apply antisym_double_sum
  intro i j
  by_cases hij : i = j
  · simp [hij]
  · have hij' : j ≠ i := fun h => hij h.symm
    rw [if_pos hij, if_pos hij', rDist_symm pva j i]
    ring

/-- Claim C8: for every body list with positive masses and every state vector
of matching length with pairwise-distinct positions, the accelerations
returned by `n_body_func` conserve total momentum at the derivative level:
the mass-weighted sum of the returned acceleration components is exactly zero
(in real arithmetic) in each of the x and y directions, by antisymmetry of
the pairwise force terms. -/
theorem n_body_func_momentum (t : ℝ) (bodies : List Body) (pva : List ℝ)
    (hlen : pva.length = 4 * bodies.length)
    (hmass : ∀ b ∈ bodies, 0 < b.mass)
    (hsep : ∀ i j, i < bodies.length → j < bodies.length → i ≠ j →
      xPos pva i ≠ xPos pva j ∨ yPos pva i ≠ yPos pva j) :
    ∑ i in Finset.range bodies.length,
        massOf bodies i * (n_body_func t pva bodies).getD (4 * i + 1) 0 = 0 ∧
    ∑ i in Finset.range bodies.length,
        massOf bodies i * (n_body_func t pva bodies).getD (4 * i + 3) 0 = 0 := by
  constructor
  · rw [Finset.sum_congr rfl fun i hi => by
      rw [(n_body_func_getD_vel t pva bodies i (List.mem_range.mp hi)).1]]
    exact mass_weighted_dVelX_sum pva bodies
  · rw [Finset.sum_congr rfl fun i hi => by
      rw [(n_body_func_getD_vel t pva bodies i (List.mem_range.mp hi)).2]]
    exact mass_weighted_dVelY_sum pva bodies

theorem n_body_func_momentum_witness :
    (pvaAB.length = 4 * [bodyA, bodyB].length ∧
      (∀ b ∈ [bodyA, bodyB], 0 < b.mass) ∧
      (∀ i j, i < [bodyA, bodyB].length → j < [bodyA, bodyB].length → i ≠ j →
        xPos pvaAB i ≠ xPos pvaAB j ∨ yPos pvaAB i ≠ yPos pvaAB j)) ∧
    (∑ i in Finset.range [bodyA, bodyB].length,
        massOf [bodyA, bodyB] i * (n_body_func 0 pvaAB [bodyA, bodyB]).getD (4 * i + 1) 0 = 0 ∧
    ∑ i in Finset.range [bodyA, bodyB].length,
        massOf [bodyA, bodyB] i * (n_body_func 0 pvaAB [bodyA, bodyB]).getD (4 * i + 3) 0 = 0) := by
  have hlen : pvaAB.length = 4 * [bodyA, bodyB].length := by simp [pvaAB]
  have hmass : ∀ b ∈ [bodyA, bodyB], 0 < b.mass := by
    intro b hb
    rcases List.mem_cons.mp hb with h | hb'
    · rw [h]; norm_num [bodyA]
    · rcases List.mem_cons.mp hb' with h | h
      · rw [h]; norm_num [bodyB]
      · simp at h
  have hsep : ∀ i j, i < [bodyA, bodyB].length → j < [bodyA, bodyB].length → i ≠ j →
      xPos pvaAB i ≠ xPos pvaAB j ∨ yPos pvaAB i ≠ yPos pvaAB j := by
    intro i j hi hj hij
    simp only [List.length_cons, List.length_nil] at hi hj
    interval_cases i <;> interval_cases j <;> simp_all [xPos, pvaAB]
  exact ⟨⟨hlen, hmass, hsep⟩, n_body_func_momentum 0 [bodyA, bodyB] pvaAB hlen hmass hsep⟩

theorem dVelXF_single (pva : List ℝ) (b : Body) : dVelXF pva [b] 0 = some 0 := rfl

theorem dVelYF_single (pva : List ℝ) (b : Body) : dVelYF pva [b] 0 = some 0 := rfl

/-- Claim C9: for a body list with zero or one body, `n_body_func` evaluates
without failure — every component of the IEEE-tracked derivative is finite
(`isSome`), since the pairwise loop contributes no terms and no distance is
raised to a negative power — and every acceleration component of the returned
derivative is zero. -/
theorem dVel_single_zero (pva : List ℝ) (b : Body) :
    dVelX pva [b] 0 = 0 ∧ dVelY pva [b] 0 = 0 := by
  constructor <;> simp [dVelX, dVelY]

theorem n_body_funcF_degenerate (t : ℝ) (pva : List ℝ) (bodies : List Body)
    (hb : bodies.length ≤ 1) :
    (∀ o ∈ n_body_funcF t pva bodies, o.isSome) ∧
    ∀ i, i < bodies.length →
      (n_body_funcF t pva bodies).getD (4 * i + 1) (some 0) = some 0 ∧
      (n_body_funcF t pva bodies).getD (4 * i + 3) (some 0) = some 0 ∧
      (n_body_func t pva bodies).getD (4 * i + 1) 0 = 0 ∧
      (n_body_func t pva bodies).getD (4 * i + 3) 0 = 0 := by
  match bodies with
  | [] =>
    refine ⟨?_, fun i hi => by simp at hi⟩
    intro o ho
    simp [n_body_funcF] at ho
  | [b] =>
    constructor
    · intro o ho
      obtain ⟨k, hk, rfl⟩ := List.mem_map.mp ho
      have hk4 : k < 4 := by simpa using hk
      interval_cases k <;>
        simp [dVelXF_single, dVelYF_single]
    · intro i hi
      have hi0 : i = 0 := by simpa using hi
      subst hi0
      obtain ⟨hvx, hvy⟩ := n_body_func_getD_vel t pva [b] 0 (by simp)
      refine ⟨?_, ?_, ?_, ?_⟩
      · unfold n_body_funcF
        rw [rangeMap_getD _ _ _ _ (by simp)]
        simp [dVelXF_single]
      · unfold n_body_funcF
        rw [rangeMap_getD _ _ _ _ (by simp)]
        simp [dVelYF_single]
      · rw [hvx, (dVel_single_zero pva b).1]
      · rw [hvy, (dVel_single_zero pva b).2]
  | b :: c :: tl => simp at hb

theorem n_body_funcF_degenerate_witness :
    [bodyA].length ≤ 1 ∧
    ((∀ o ∈ n_body_funcF 0 [0, 0, 0, 0] [bodyA], o.isSome) ∧
    ∀ i, i < [bodyA].length →
      (n_body_funcF 0 [0, 0, 0, 0] [bodyA]).getD (4 * i + 1) (some 0) = some 0 ∧
      (n_body_funcF 0 [0, 0, 0, 0] [bodyA]).getD (4 * i + 3) (some 0) = some 0 ∧
      (n_body_func 0 [0, 0, 0, 0] [bodyA]).getD (4 * i + 1) 0 = 0 ∧
      (n_body_func 0 [0, 0, 0, 0] [bodyA]).getD (4 * i + 3) 0 = 0) :=
  ⟨by simp, n_body_funcF_degenerate 0 [0, 0, 0, 0] [bodyA] (by simp)⟩

theorem massOf_congr (bodies bodies' : List Body)
    (hm : bodies.map Body.mass = bodies'.map Body.mass) (j : ℕ) :
    massOf bodies j = massOf bodies' j := by
  induction bodies generalizing bodies' j with
  | nil =>
    have : bodies' = [] := by simpa using (List.map_eq_nil_iff.mp hm.symm)
    subst this
    rfl
  | cons b tl ih =>
    match bodies' with
    | [] => simp at hm
    | c :: tl' =>
      simp only [List.map_cons, List.cons.injEq] at hm
      cases j with
      | zero =>
        show b.mass = c.mass
        exact hm.1
      | succ j =>
        show massOf tl j = massOf tl' j
        exact ih tl' hm.2 j

/-- Claim C10: `n_body_func` is a pure function of its arguments — in this
embedding mutation is impossible, and beyond that the result does not depend
on the (unused) time argument nor on any body attribute other than `mass`:
two calls given the same state vector and body lists with equal mass
sequences return equal results. -/
theorem n_body_func_pure (t t' : ℝ) (pva : List ℝ) (bodies bodies' : List Body)
    (hm : bodies.map Body.mass = bodies'.map Body.mass) :
    n_body_func t pva bodies = n_body_func t' pva bodies' := by
  have hlen : bodies.length = bodies'.length := by
    simpa using congrArg List.length hm
  have hmass := massOf_congr bodies bodies' hm
  have hdx : ∀ i, dVelX pva bodies i = dVelX pva bodies' i := by
    intro i
    unfold dVelX
    rw [hlen]
    exact Finset.sum_congr rfl fun j _ => by rw [hmass j]
  have hdy : ∀ i, dVelY pva bodies i = dVelY pva bodies' i := by
    intro i
    unfold dVelY
    rw [hlen]
    exact Finset.sum_congr rfl fun j _ => by rw [hmass j]
  unfold n_body_func
  rw [hlen]
  refine List.map_congr_left fun k _ => ?_
  by_cases h0 : k % 4 = 0
  · simp [h0]
  · by_cases h2 : k % 4 = 2 <;> by_cases h1 : k % 4 = 1 <;>
      simp [h0, h2, h1, hdx, hdy]

/-- A test body sharing only its mass with `bodyD`. -/
def bodyC : Body := Body.mk 1 2 3 4 5 "c"

/-- A test body sharing only its mass with `bodyC`. -/
def bodyD : Body := Body.mk 9 8 7 6 5 "d"

theorem n_body_func_pure_witness :
    [bodyC].map Body.mass = [bodyD].map Body.mass ∧
    n_body_func 0 [1, 0, 0, 0] [bodyC] = n_body_func 1 [1, 0, 0, 0] [bodyD] :=
  ⟨rfl, n_body_func_pure 0 1 [1, 0, 0, 0] [bodyC] [bodyD] rfl⟩
